import Mathlib

/-!
Verification of the Bulls and Cows core game logic (`src/game_logic.py`).

Python strings are modelled as `List Char`; the score dictionary returned by
`evaluate_guess` is modelled as the `Score` structure; Python exceptions and
the filesystem are modelled explicitly (`Except`, a path-indexed partial map).
-/

set_option autoImplicit false

/-- Result dictionary of `evaluate_guess`: the keys `bulls` and `cows`. -/
structure Score where
  bulls : Nat
  cows : Nat
deriving DecidableEq, Repr

/-- Componentwise sum of two scores (used to state the spec reference scoring). -/
def Score.add (a b : Score) : Score := ⟨a.bulls + b.bulls, a.cows + b.cows⟩

/-- The loop body of `evaluate_guess`: Python iterates with
`for idx, digit in enumerate(guess)`, carrying the running counts.
`secret[idx]` is only read inside the `digit in secret` branch; an
out-of-bounds read (a Python `IndexError`) is modelled as `none`. -/
def evalLoop (secret : List Char) : Nat → List Char → Score → Option Score
  | _, [], acc => some acc
  | idx, d :: rest, acc =>
    if d ∈ secret then
      match secret.get? idx with
      | none => none
      | some c =>
        if c = d then evalLoop secret (idx + 1) rest ⟨acc.bulls + 1, acc.cows⟩
        else evalLoop secret (idx + 1) rest ⟨acc.bulls, acc.cows + 1⟩
    else evalLoop secret (idx + 1) rest acc

/-- Embedding of `evaluate_guess(guess, secret)` from `src/game_logic.py`
(lines 55-84): counts start at zero and the enumerate loop runs over `guess`. -/
def evaluate_guess (guess secret : List Char) : Option Score :=
  evalLoop secret 0 guess ⟨0, 0⟩

/-- Contribution of one position to the score, exactly as the spec words it:
the pair `p` is `(guess[i], secret[i])`; if `guess[i]` does not occur anywhere
in `secret` it contributes nothing, else a bull when `guess[i] == secret[i]`
and a cow otherwise. -/
def specStep (secret : List Char) (p : Char × Char) : Score :=
  if p.1 ∈ secret then (if p.1 = p.2 then ⟨1, 0⟩ else ⟨0, 1⟩) else ⟨0, 0⟩

/-- Sum of a list of per-position scores. -/
def sumScores (l : List Score) : Score := l.foldl Score.add ⟨0, 0⟩

/-- The reference scoring definition of the spec (section 4.3): add up the
per-position contributions over all positions of the guess. -/
def specScore (guess secret : List Char) : Score :=
  sumScores ((guess.zip secret).map (specStep secret))

/-- Non-ASCII characters CPython's `str.isdigit` also accepts: it is true of
every character with Unicode property Numeric_Type Digit or Decimal, not just
`0`-`9`. The model enumerates a finite sample of that set — the superscripts
one, two, three (U+00B9, U+00B2, U+00B3) and the Arabic-Indic digits
(U+0660-U+0669) — and is therefore exact on strings drawn from ASCII plus
this sample. Every theorem below uses it only on such strings. -/
def pyExtraDigits : List Char :=
  [Char.ofNat 0xB9, Char.ofNat 0xB2, Char.ofNat 0xB3,
   Char.ofNat 0x660, Char.ofNat 0x661, Char.ofNat 0x662, Char.ofNat 0x663,
   Char.ofNat 0x664, Char.ofNat 0x665, Char.ofNat 0x666, Char.ofNat 0x667,
   Char.ofNat 0x668, Char.ofNat 0x669]

/-- Per-character digit test of CPython's `str.isdigit`: the decimal digits
`0`-`9` together with the other Unicode digit characters (see
`pyExtraDigits`). -/
def pyCharIsDigit (c : Char) : Bool := c.isDigit || decide (c ∈ pyExtraDigits)

/-- Embedding of Python `guess.isdigit()`: true when the string is nonempty
and every character is a Unicode digit character. -/
def pyIsDigit (s : List Char) : Bool := !s.isEmpty && s.all pyCharIsDigit

/-- Embedding of `is_valid_guess(guess)` from `src/game_logic.py`
(lines 87-106). `len(set(guess))` is the number of distinct characters,
i.e. `guess.dedup.length`. -/
def is_valid_guess (guess : List Char) : Bool × String :=
  if !(pyIsDigit guess) then (false, "Input must contain only digits")
  else if guess.length ≠ 4 then (false, "Input must be exactly 4 digits long")
  else if guess.dedup.length ≠ 4 then (false, "All digits must be unique")
  else (true, "")

/-- The character `str(d)` produces for a single decimal digit `d`. -/
def digitToChar (d : Nat) : Char := Char.ofNat (48 + d)

/-- Embedding of `generate_secret_number()` from `src/game_logic.py`
(lines 12-21): `random.sample(range(10), 4)` is an external source of
randomness, so its result is the parameter `digits` (by the standard library
contract, a list of 4 distinct elements of `range(10)`, each of the
10·9·8·7 outcomes equally likely); the function then computes
`''.join(map(str, digits))`. -/
def generate_secret_number (digits : List Nat) : List Char :=
  (digits.map (fun d => (Nat.repr d).toList)).flatten

/-- Well-formedness contract of the result of `random.sample(range(10), 4)`:
four pairwise-distinct numbers below 10. -/
def isSample (l : List Nat) : Prop := l.length = 4 ∧ l.Nodup ∧ ∀ d ∈ l, d < 10

instance (l : List Nat) : Decidable (isSample l) := by
  unfold isSample; infer_instance

/-- All candidate outcomes of `random.sample(range(10), 4)`: ordered
4-tuples of digits, filtered to the pairwise-distinct ones. -/
def allSamples : List (List Nat) :=
  (((List.range 10).flatMap fun a =>
    (List.range 10).flatMap fun b =>
      (List.range 10).flatMap fun c =>
        (List.range 10).map fun d => [a, b, c, d]).filter
    fun l => decide l.Nodup)

/-- Shape of a validated guess or secret: 4 pairwise-distinct digit characters. -/
def validShape (s : List Char) : Prop :=
  s.length = 4 ∧ s.Nodup ∧ ∀ c ∈ s, c.isDigit = true

instance (s : List Char) : Decidable (validShape s) := by
  unfold validShape; infer_instance

/-- Errors that `load_secret_number` can surface: `open` on a missing path
raises `FileNotFoundError`. -/
inductive LoadError where
  | fileNotFound
deriving DecidableEq, Repr

/-- Embedding of Python `str.strip()`: drop whitespace from both ends. -/
def pyStrip (s : List Char) : List Char :=
  ((s.dropWhile Char.isWhitespace).reverse.dropWhile Char.isWhitespace).reverse

/-- Embedding of `load_secret_number(filepath)` from `src/game_logic.py`
(lines 38-52). The filesystem is a partial map from paths to file contents;
`open` on a missing path raises `FileNotFoundError` (modelled as
`Except.error LoadError.fileNotFound`), otherwise the file is read and
stripped. The function has no handler: it never catches the error. -/
def load_secret_number (fs : String → Option (List Char)) (filepath : String) :
    Except LoadError (List Char) :=
  match fs filepath with
  | none => Except.error LoadError.fileNotFound
  | some contents => Except.ok (pyStrip contents)

theorem Score.add_assoc (a b c : Score) : (a.add b).add c = a.add (b.add c) := by
  simp [Score.add, Nat.add_assoc]

theorem Score.add_zero_right (a : Score) : a.add ⟨0, 0⟩ = a := by
  simp [Score.add]

theorem Score.add_zero_left (a : Score) : Score.add ⟨0, 0⟩ a = a := by
  simp [Score.add]

theorem foldl_add_eq (l : List Score) (acc : Score) :
    l.foldl Score.add acc = acc.add (sumScores l) := by
  induction l generalizing acc with
  | nil => simp [sumScores, Score.add_zero_right]
  | cons x t ih =>
    simp only [List.foldl_cons, sumScores] at *
    rw [ih, ih (Score.add ⟨0, 0⟩ x), Score.add_zero_left, Score.add_assoc]

theorem sumScores_cons (x : Score) (l : List Score) :
    sumScores (x :: l) = x.add (sumScores l) := by
  simp only [sumScores, List.foldl_cons]
  rw [foldl_add_eq, Score.add_zero_left]
  rfl

theorem get?_of_drop_cons {α : Type} {l ss : List α} {c : α} {idx : Nat}
    (h : l.drop idx = c :: ss) : l.get? idx = some c := by
  have h0 : (l.drop idx)[(0 : Nat)]? = l[idx + 0]? := List.getElem?_drop l idx 0
  rw [h] at h0
  rw [List.get?_eq_getElem?]
  simpa using h0.symm

theorem drop_succ_of_drop_cons {α : Type} {l ss : List α} {c : α} {idx : Nat}
    (h : l.drop idx = c :: ss) : l.drop (idx + 1) = ss := by
  have h1 : List.drop 1 (List.drop idx l) = List.drop (idx + 1) l := List.drop_drop 1 idx l
  rw [h] at h1
  simpa using h1.symm

/-- The enumerate loop of `evaluate_guess`, started at position `idx` with the
still-unprocessed guess characters `gs`, succeeds and adds exactly the spec's
per-position contributions for the remaining positions. -/
theorem evalLoop_spec (gs : List Char) : ∀ (ss : List Char) (secret : List Char)
    (idx : Nat) (acc : Score), secret.drop idx = ss → gs.length ≤ ss.length →
    evalLoop secret idx gs acc =
      some (acc.add (sumScores ((gs.zip ss).map (specStep secret)))) := by
  induction gs with
  | nil =>
    intro ss secret idx acc _ _
    simp [evalLoop, sumScores, Score.add_zero_right]
  | cons d gs ih =>
    intro ss secret idx acc hdrop hlen
    cases ss with
    | nil => simp at hlen
    | cons c ss =>
      have hget : secret.get? idx = some c := get?_of_drop_cons hdrop
      have hdrop1 : secret.drop (idx + 1) = ss := drop_succ_of_drop_cons hdrop
      have hlen1 : gs.length ≤ ss.length := by simpa using hlen
      simp only [evalLoop, hget]
      by_cases hmem : d ∈ secret
      · simp only [if_pos hmem]
        by_cases hc : c = d
        · subst hc
          rw [if_pos rfl, ih ss secret (idx + 1) _ hdrop1 hlen1]
          have hstep : specStep secret (c, c) = ⟨1, 0⟩ := by
            simp [specStep, hmem]
          simp [sumScores_cons, hstep, Score.add]
          omega
        · rw [if_neg hc, ih ss secret (idx + 1) _ hdrop1 hlen1]
          have hstep : specStep secret (d, c) = ⟨0, 1⟩ := by
            have hdc : ¬ d = c := fun h => hc h.symm
            simp [specStep, hmem, hdc]
          simp [sumScores_cons, hstep, Score.add]
          omega
      · simp only [if_neg hmem]
        rw [ih ss secret (idx + 1) acc hdrop1 hlen1]
        have hstep : specStep secret (d, c) = ⟨0, 0⟩ := by simp [specStep, hmem]
        simp [sumScores_cons, hstep, Score.add_zero_left]

/-- `evaluate_guess` never hits an out-of-bounds read and computes the spec's
reference score whenever guess and secret have the same length. -/
theorem evaluate_guess_eq_specScore (guess secret : List Char)
    (h : guess.length = secret.length) :
    evaluate_guess guess secret = some (specScore guess secret) := by
  have := evalLoop_spec guess secret secret 0 ⟨0, 0⟩ (by simp) (by simp [h])
  rw [evaluate_guess, this, specScore, Score.add_zero_left]

/-- A position contributes to `bulls + cows` exactly when its guess character
occurs somewhere in the secret. -/
theorem sumScores_bulls_add_cows (secret : List Char) : ∀ l : List (Char × Char),
    (sumScores (l.map (specStep secret))).bulls +
      (sumScores (l.map (specStep secret))).cows =
    l.countP (fun p => decide (p.1 ∈ secret)) := by
  intro l
  induction l with
  | nil => simp [sumScores]
  | cons p t ih =>
    rw [List.map_cons, sumScores_cons, List.countP_cons]
    by_cases hmem : p.1 ∈ secret
    · by_cases heq : p.1 = p.2
      · have hstep : specStep secret p = ⟨1, 0⟩ := by
          unfold specStep; rw [if_pos hmem, if_pos heq]
        simp [hstep, Score.add, ih, hmem]
        omega
      · have hstep : specStep secret p = ⟨0, 1⟩ := by
          unfold specStep; rw [if_pos hmem, if_neg heq]
        simp [hstep, Score.add, ih, hmem]
        omega
    · have hstep : specStep secret p = ⟨0, 0⟩ := by
        unfold specStep; rw [if_neg hmem]
      simp [hstep, Score.add, ih, hmem]

theorem zip_self {α : Type} : ∀ l : List α, l.zip l = l.map (fun d => (d, d))
  | [] => rfl
  | a :: t => by rw [List.zip_cons_cons, List.map_cons, zip_self t]

/-- Positions whose guess character equals the secret character at the same
position are all bulls, provided each occurs in the secret. -/
theorem sumScores_diag (s : List Char) : ∀ l : List Char, (∀ d ∈ l, d ∈ s) →
    sumScores ((l.map (fun d => (d, d))).map (specStep s)) = ⟨l.length, 0⟩ := by
  intro l
  induction l with
  | nil => intro _; simp [sumScores]
  | cons d t ih =>
    intro h
    have hd : d ∈ s := h d (List.mem_cons_self d t)
    have ht : ∀ x ∈ t, x ∈ s := fun x hx => h x (List.mem_cons_of_mem d hx)
    rw [List.map_cons, List.map_cons, sumScores_cons, ih ht]
    simp [specStep, hd, Score.add]
    omega

/-- If no guess character occurs in the secret, every position contributes
nothing. -/
theorem sumScores_disjoint (s : List Char) : ∀ l : List (Char × Char),
    (∀ p ∈ l, p.1 ∉ s) → sumScores (l.map (specStep s)) = ⟨0, 0⟩ := by
  intro l
  induction l with
  | nil => intro _; rfl
  | cons p t ih =>
    intro h
    have hp : p.1 ∉ s := h p (List.mem_cons_self p t)
    have ht : ∀ x ∈ t, x.1 ∉ s := fun x hx => h x (List.mem_cons_of_mem p hx)
    rw [List.map_cons, sumScores_cons, ih ht]
    simp [specStep, hp, Score.add]

/-- C1: `evaluate_guess` computes exactly the spec's reference definition
(per position: no occurrence contributes nothing, a positional match is a
bull, any other occurrence is a cow); the three literal scenarios of the spec
hold, and a guess sharing no character with the secret scores zero bulls and
zero cows. -/
theorem C1_evaluate_guess_matches_reference :
    (∀ guess secret : List Char, guess.length = secret.length →
      evaluate_guess guess secret = some (specScore guess secret)) ∧
    evaluate_guess "1234".toList "1243".toList = some ⟨2, 2⟩ ∧
    evaluate_guess "5678".toList "1234".toList = some ⟨0, 0⟩ ∧
    evaluate_guess "7814".toList "7846".toList = some ⟨2, 1⟩ ∧
    (∀ guess secret : List Char, guess.length = secret.length →
      (∀ d ∈ guess, d ∉ secret) → evaluate_guess guess secret = some ⟨0, 0⟩) := by
  refine ⟨evaluate_guess_eq_specScore, by decide, by decide, by decide, ?_⟩
  intro guess secret hlen hdisj
  rw [evaluate_guess_eq_specScore guess secret hlen, specScore,
    sumScores_disjoint]
  intro p hp
  exact hdisj p.1 (List.of_mem_zip hp).1

/-- C1 witness: the general equation instantiated at the first literal
scenario. -/
theorem C1_witness :
    evaluate_guess "1234".toList "1243".toList =
      some (specScore "1234".toList "1243".toList) :=
  C1_evaluate_guess_matches_reference.1 "1234".toList "1243".toList rfl

/-- On ASCII characters, CPython's digit test coincides with `0`-`9`: all
the extra Unicode digit characters lie above U+007F. -/
theorem pyCharIsDigit_ascii (c : Char) (h : c.toNat < 128) :
    pyCharIsDigit c = c.isDigit := by
  have hex : ∀ x ∈ pyExtraDigits, 128 ≤ x.toNat := by decide
  unfold pyCharIsDigit
  by_cases hmem : c ∈ pyExtraDigits
  · exact absurd (hex c hmem) (by omega)
  · simp [hmem]

/-- C2 counterexample: the claimed equivalence is false at the concrete
input `123²`: Python's `isdigit` accepts the superscript-two character, so
the validator returns valid even though `²` is not a decimal digit 0-9. -/
theorem C2_counterexample :
    ¬ ((is_valid_guess "123²".toList).1 = true ↔
      ("123²".toList.length = 4 ∧ (∀ c ∈ "123²".toList, c.isDigit = true) ∧
        "123²".toList.Nodup)) := by
  decide

/-- C2 (amended): restricted to ASCII strings — where `str.isdigit` means
exactly `0`-`9` — the validator accepts exactly the strings of length 4
whose characters are decimal digits, pairwise distinct. -/
theorem C2_is_valid_guess_iff (s : List Char) (hascii : ∀ c ∈ s, c.toNat < 128) :
    (is_valid_guess s).1 = true ↔
      (s.length = 4 ∧ (∀ c ∈ s, c.isDigit = true) ∧ s.Nodup) := by
  constructor
  · intro h
    unfold is_valid_guess at h
    split_ifs at h with h1 h2 h3
    · have hlen : s.length = 4 := not_not.mp h2
      have hded : s.dedup.length = 4 := not_not.mp h3
      have hpy : pyIsDigit s = true := by
        by_contra hc
        exact h1 (by simp [Bool.eq_false_iff.mpr hc])
      have hnodup : s.Nodup := by
        have hsub : List.Sublist s.dedup s := List.dedup_sublist s
        have heq : s.dedup = s := hsub.eq_of_length (by rw [hded, hlen])
        exact List.dedup_eq_self.mp heq
      have hdig : ∀ c ∈ s, c.isDigit = true := by
        intro c hc
        have hand := (Bool.and_eq_true _ _).mp hpy
        have hpc : pyCharIsDigit c = true := List.all_eq_true.mp hand.2 c hc
        rw [pyCharIsDigit_ascii c (hascii c hc)] at hpc
        exact hpc
      exact ⟨hlen, hdig, hnodup⟩
  · rintro ⟨hlen, hdig, hnodup⟩
    have hpy : pyIsDigit s = true := by
      cases s with
      | nil => simp at hlen
      | cons a t =>
        unfold pyIsDigit
        simp only [List.isEmpty_cons, Bool.not_false, Bool.true_and]
        refine List.all_eq_true.mpr ?_
        intro c hc
        unfold pyCharIsDigit
        rw [hdig c hc]
        rfl
    have hded : s.dedup.length = 4 := by
      rw [List.dedup_eq_self.mpr hnodup, hlen]
    simp [is_valid_guess, hpy, hlen, hded]

/-- C2 witness: the amended equivalence applied to a concrete ASCII guess. -/
theorem C2_witness : (∀ c ∈ "1234".toList, c.toNat < 128) ∧
    (is_valid_guess "1234".toList).1 = true :=
  ⟨by decide, (C2_is_valid_guess_iff "1234".toList (by decide)).mpr (by decide)⟩

/-- C3: for valid 4-unique-digit guess and secret, the score exists and
satisfies `0 ≤ bulls`, `0 ≤ cows`, `bulls + cows ≤ 4`, with
`bulls + cows = 4` only when every guess character occurs in the secret. -/
theorem C3_score_bound (guess secret : List Char)
    (hg : validShape guess) (hs : validShape secret) :
    ∃ sc : Score, evaluate_guess guess secret = some sc ∧
      0 ≤ sc.bulls ∧ 0 ≤ sc.cows ∧ sc.bulls + sc.cows ≤ 4 ∧
      (sc.bulls + sc.cows = 4 → ∀ d ∈ guess, d ∈ secret) := by
  have hlen : guess.length = secret.length := by rw [hg.1, hs.1]
  refine ⟨specScore guess secret, evaluate_guess_eq_specScore guess secret hlen,
    Nat.zero_le _, Nat.zero_le _, ?_, ?_⟩
  · rw [specScore, sumScores_bulls_add_cows]
    calc (guess.zip secret).countP (fun p => decide (p.1 ∈ secret))
        ≤ (guess.zip secret).length := List.countP_le_length _
      _ = min guess.length secret.length := List.length_zip guess secret
      _ ≤ guess.length := Nat.min_le_left _ _
      _ = 4 := hg.1
  · intro hfour d hd
    rw [specScore, sumScores_bulls_add_cows] at hfour
    have hcount : (guess.zip secret).countP (fun p => decide (p.1 ∈ secret)) =
        (guess.zip secret).length := by
      rw [hfour, List.length_zip, hlen, hs.1]
      simp
    have hall := List.countP_eq_length.mp hcount
    have hfst : (guess.zip secret).map Prod.fst = guess :=
      List.map_fst_zip guess secret (Nat.le_of_eq hlen)
    rw [← hfst] at hd
    obtain ⟨p, hp, hpd⟩ := List.mem_map.mp hd
    have := hall p hp
    rw [hpd] at this
    exact of_decide_eq_true this

/-- C3 witness: the bound at the spec's first literal scenario. -/
theorem C3_witness : validShape "1234".toList ∧ validShape "1243".toList ∧
    ∃ sc : Score, evaluate_guess "1234".toList "1243".toList = some sc ∧
      0 ≤ sc.bulls ∧ 0 ≤ sc.cows ∧ sc.bulls + sc.cows ≤ 4 ∧
      (sc.bulls + sc.cows = 4 → ∀ d ∈ "1234".toList, d ∈ "1243".toList) :=
  ⟨by decide, by decide,
    C3_score_bound "1234".toList "1243".toList (by decide) (by decide)⟩

/-- C4 counterexample: the code prefixes its reasons (for example
`Input must contain only digits`), so the claim's literal reason string
`must contain only digits` is not what `is_valid_guess` returns. -/
theorem C4_counterexample :
    is_valid_guess "12a4".toList ≠ (false, "must contain only digits") := by
  decide

/-- C4 (amended): the checks run in the claimed order (digit characters
first, then length 4, then distinctness), short-circuiting on the first
failure, but the reason strings are `Input must contain only digits`,
`Input must be exactly 4 digits long` and `All digits must be unique`.
The inputs `12a` (non-digit and wrong length: digit reason wins) and
`11223` (all digits, wrong length and duplicated: length reason wins)
exhibit the short-circuit order. -/
theorem C4_literal_results :
    is_valid_guess "12a4".toList = (false, "Input must contain only digits") ∧
    is_valid_guess "123".toList = (false, "Input must be exactly 4 digits long") ∧
    is_valid_guess "1123".toList = (false, "All digits must be unique") ∧
    is_valid_guess "1234".toList = (true, "") ∧
    is_valid_guess "12a".toList = (false, "Input must contain only digits") ∧
    is_valid_guess "11223".toList = (false, "Input must be exactly 4 digits long") := by
  decide

/-- C6: a guess equal to the secret scores 4 bulls and 0 cows for every
valid 4-unique-digit secret. -/
theorem C6_self_match (s : List Char) (hs : validShape s) :
    evaluate_guess s s = some ⟨4, 0⟩ := by
  rw [evaluate_guess_eq_specScore s s rfl, specScore, zip_self,
    sumScores_diag s s (fun d hd => hd), hs.1]

/-- C6 witness: self-match at a concrete valid secret. -/
theorem C6_witness : validShape "7814".toList ∧
    evaluate_guess "7814".toList "7814".toList = some ⟨4, 0⟩ :=
  ⟨by decide, C6_self_match "7814".toList (by decide)⟩

/-- C7: on any two strings of the same length, malformed or not,
`evaluate_guess` returns a result: the read `secret[idx]` never goes out of
bounds, so no exception is raised. -/
theorem C7_no_crash (guess secret : List Char)
    (hlen : guess.length = secret.length) :
    (evaluate_guess guess secret).isSome = true := by
  rw [evaluate_guess_eq_specScore guess secret hlen]
  rfl

/-- C7 witness: a malformed pair (non-digit characters, repeated digits,
length 5) still yields a result. -/
theorem C7_witness : (evaluate_guess "11a!?".toList "zz11a".toList).isSome = true :=
  C7_no_crash "11a!?".toList "zz11a".toList rfl

/-- C8: when the file is missing, `load_secret_number` surfaces the
distinct `FileNotFoundError` and never produces a value of its own. -/
theorem C8_missing_file_surfaces_error (fs : String → Option (List Char))
    (filepath : String) (h : fs filepath = none) :
    load_secret_number fs filepath = Except.error LoadError.fileNotFound ∧
      ∀ v : List Char, load_secret_number fs filepath ≠ Except.ok v := by
  unfold load_secret_number
  rw [h]
  exact ⟨rfl, fun v hv => by simp at hv⟩

/-- C8 witness: the empty filesystem at the default path. -/
theorem C8_witness :
    load_secret_number (fun _ => none) "data/secret_number.txt" =
      Except.error LoadError.fileNotFound ∧
    ∀ v : List Char, load_secret_number (fun _ => none) "data/secret_number.txt" ≠
      Except.ok v :=
  C8_missing_file_surfaces_error (fun _ => none) "data/secret_number.txt" rfl

theorem repr_digit (d : Nat) (h : d < 10) : (Nat.repr d).toList = [digitToChar d] := by
  interval_cases d <;> rfl

theorem digitToChar_toNat (d : Nat) (h : d < 10) : (digitToChar d).toNat = 48 + d := by
  interval_cases d <;> rfl

theorem digitToChar_isDigit (d : Nat) (h : d < 10) : (digitToChar d).isDigit = true := by
  interval_cases d <;> rfl

/-- On single-digit samples, `join(map(str, digits))` is just the digit
characters in draw order. -/
theorem gen_eq_map (l : List Nat) (h : ∀ d ∈ l, d < 10) :
    generate_secret_number l = l.map digitToChar := by
  induction l with
  | nil => rfl
  | cons d t ih =>
    have hd : d < 10 := h d (List.mem_cons_self d t)
    have ht : ∀ x ∈ t, x < 10 := fun x hx => h x (List.mem_cons_of_mem d hx)
    simp only [generate_secret_number, List.map_cons, List.flatten_cons]
    rw [repr_digit d hd]
    simp only [generate_secret_number] at ih
    rw [ih ht]
    rfl

theorem map_digitToChar_inj : ∀ (l1 l2 : List Nat),
    (∀ d ∈ l1, d < 10) → (∀ d ∈ l2, d < 10) →
    l1.map digitToChar = l2.map digitToChar → l1 = l2
  | [], [], _, _, _ => rfl
  | [], _ :: _, _, _, h => by simp at h
  | _ :: _, [], _, _, h => by simp at h
  | a :: t1, b :: t2, h1, h2, h => by
    simp only [List.map_cons, List.cons.injEq] at h
    have ha : a < 10 := h1 a (List.mem_cons_self a t1)
    have hb : b < 10 := h2 b (List.mem_cons_self b t2)
    have hab : a = b := by
      have hnat := congrArg Char.toNat h.1
      rw [digitToChar_toNat a ha, digitToChar_toNat b hb] at hnat
      omega
    have ht := map_digitToChar_inj t1 t2
      (fun x hx => h1 x (List.mem_cons_of_mem a hx))
      (fun x hx => h2 x (List.mem_cons_of_mem b hx)) h.2
    rw [hab, ht]

/-- C5: any value `generate_secret_number` returns (for a sample meeting the
`random.sample(range(10), 4)` contract) has length 4, consists of decimal
digit characters, and has pairwise-distinct characters. -/
theorem C5_secret_wellformed (digits : List Nat) (h : isSample digits) :
    (generate_secret_number digits).length = 4 ∧
    (∀ c ∈ generate_secret_number digits, c.isDigit = true) ∧
    (generate_secret_number digits).Nodup := by
  obtain ⟨hlen, hnodup, hlt⟩ := h
  rw [gen_eq_map digits hlt]
  refine ⟨by rw [List.length_map, hlen], ?_, ?_⟩
  · intro c hc
    obtain ⟨d, hd, rfl⟩ := List.mem_map.mp hc
    exact digitToChar_isDigit d (hlt d hd)
  · refine List.Nodup.map_on ?_ hnodup
    intro x hx y hy hxy
    have hnat := congrArg Char.toNat hxy
    rw [digitToChar_toNat x (hlt x hx), digitToChar_toNat y (hlt y hy)] at hnat
    omega

/-- C5 witness: the well-formedness at the concrete sample `[0, 1, 2, 3]`. -/
theorem C5_witness : isSample [0, 1, 2, 3] ∧
    ((generate_secret_number [0, 1, 2, 3]).length = 4 ∧
     (∀ c ∈ generate_secret_number [0, 1, 2, 3], c.isDigit = true) ∧
     (generate_secret_number [0, 1, 2, 3]).Nodup) :=
  ⟨by decide, C5_secret_wellformed [0, 1, 2, 3] (by decide)⟩

set_option maxRecDepth 8000 in
/-- There are exactly 10·9·8·7 = 5040 possible results of
`random.sample(range(10), 4)`. -/
theorem allSamples_length : allSamples.length = 5040 := by
  rw [allSamples, List.filter_flatMap]
  simp only [List.length_flatMap]
  decide

/-- `allSamples` enumerates exactly the lists meeting the
`random.sample(range(10), 4)` contract. -/
theorem mem_allSamples (l : List Nat) : l ∈ allSamples ↔ isSample l := by
  rw [allSamples, List.mem_filter]
  constructor
  · rintro ⟨hmem, hnodup⟩
    rw [List.mem_flatMap] at hmem
    obtain ⟨a, ha, hmem⟩ := hmem
    rw [List.mem_flatMap] at hmem
    obtain ⟨b, hb, hmem⟩ := hmem
    rw [List.mem_flatMap] at hmem
    obtain ⟨c, hc, hmem⟩ := hmem
    rw [List.mem_map] at hmem
    obtain ⟨d, hd, rfl⟩ := hmem
    rw [List.mem_range] at ha hb hc hd
    refine ⟨rfl, of_decide_eq_true hnodup, ?_⟩
    intro x hx
    simp only [List.mem_cons, List.not_mem_nil, or_false] at hx
    rcases hx with rfl | rfl | rfl | rfl <;> assumption
  · rintro ⟨hlen, hnodup, hlt⟩
    rcases l with - | ⟨a, l⟩
    · simp at hlen
    rcases l with - | ⟨b, l⟩
    · simp at hlen
    rcases l with - | ⟨c, l⟩
    · simp at hlen
    rcases l with - | ⟨d, l⟩
    · simp at hlen
    rcases l with - | ⟨e, l⟩
    · refine ⟨?_, decide_eq_true hnodup⟩
      refine List.mem_flatMap.mpr ⟨a, List.mem_range.mpr (hlt a (by simp)), ?_⟩
      refine List.mem_flatMap.mpr ⟨b, List.mem_range.mpr (hlt b (by simp)), ?_⟩
      refine List.mem_flatMap.mpr ⟨c, List.mem_range.mpr (hlt c (by simp)), ?_⟩
      exact List.mem_map.mpr ⟨d, List.mem_range.mpr (hlt d (by simp)), rfl⟩
    · simp at hlen

/-- C9: there are exactly 5040 possible samples, and
`generate_secret_number` is injective on them: each possible secret arises
from exactly one sample. Since `random.sample(range(10), 4)` draws each of
the 5040 samples with equal probability (its library contract, and the
spec's uniform-permutation reading), each secret is returned with equal
probability 1/5040. -/
theorem C9_uniform_secrets :
    allSamples.length = 5040 ∧
    (∀ l : List Nat, l ∈ allSamples ↔ isSample l) ∧
    (∀ t1 t2 : List Nat, isSample t1 → isSample t2 →
      generate_secret_number t1 = generate_secret_number t2 → t1 = t2) := by
  refine ⟨allSamples_length, mem_allSamples, ?_⟩
  intro t1 t2 h1 h2 heq
  rw [gen_eq_map t1 h1.2.2, gen_eq_map t2 h2.2.2] at heq
  exact map_digitToChar_inj t1 t2 h1.2.2 h2.2.2 heq

/-- C9 witness: the characterization and the injectivity applied at the
concrete sample `[0, 1, 2, 3]`. -/
theorem C9_witness :
    (([0, 1, 2, 3] : List Nat) ∈ allSamples ↔ isSample [0, 1, 2, 3]) ∧
    ([0, 1, 2, 3] : List Nat) = [0, 1, 2, 3] :=
  ⟨C9_uniform_secrets.2.1 [0, 1, 2, 3],
   C9_uniform_secrets.2.2 [0, 1, 2, 3] [0, 1, 2, 3] (by decide) (by decide) rfl⟩

/-- C10: the empty string is rejected by the first check with reason
`Input must contain only digits`: Python's `"".isdigit()` is false on the
empty string even though each of its (zero) characters is vacuously a
digit, so validation never reaches the length check. -/
theorem C10_empty_string_rejected :
    is_valid_guess "".toList = (false, "Input must contain only digits") ∧
    pyIsDigit "".toList = false ∧
    ("".toList.all (fun c => c.isDigit)) = true := by
  decide
